import Mathlib

/-
Verification development for the OpenAPI specification ingestion pipeline of
the "API Harmony Lite" dashboard.

The embedding covers:
  * the YAML/JSON format detection of the URL proxy route
    (src/app/api/fetch-spec/route.ts, lines 64-81), with the two text parsers
    taken as parameters (they are external libraries: js-yaml and JSON.parse);
  * the OpenAPI 3.0.x version normalizer shared by the URL route (route.ts
    lines 84-88) and the file-upload form (openapi-upload-form.tsx lines
    125-130): both test
      openapi && typeof openapi === 'string'
        && openapi.startsWith('3.0.') && openapi > '3.0.3'
    where ">" is JavaScript lexicographic string comparison;
  * the validate/bundle stage of the live route (route.ts lines 90-99) and of
    the older route variant that retries once after an "Unsupported OpenAPI
    version" failure (the unnamed duplicate of the route, lines 75-99);
  * the file-upload parsing and bundling path of OpenApiUploadForm.onSubmit
    (openapi-upload-form.tsx lines 111-151);
  * the active-specification store transitions driven by onSubmit
    (openapi-upload-form.tsx lines 53-193); the store setters themselves live
    in src/stores/openapi-store, which is not part of the source snapshot, so
    they are modelled from the spec (each setter updates exactly its own
    fields; setSpec replaces document/rawText/name/id together);
  * the schema dependency graph builder of DependencyGraphViewer
    (the unnamed viewer file, lines 93-210), for OpenAPI v3 documents.

JavaScript values are modelled by the inductive `Json` below.  So that every
definition evaluates inside the kernel (decide/rfl), arrays and objects are
represented as cons-chains inside the single inductive rather than as nested
`List`s.  Object keys are kept in insertion order, as JavaScript does.
-/

/-- Untyped JavaScript/JSON value tree.  `arrCons`/`arrNil` build arrays,
`objCons`/`objNil` build objects as ordered key-value chains. -/
inductive Json where
  | null
  | boolVal (b : Bool)
  | numVal (n : Int)
  | str (s : String)
  | arrNil
  | arrCons (head tail : Json)
  | objNil
  | objCons (key : String) (value rest : Json)
deriving DecidableEq

/-- Builds an object from a list of fields (sugar for writing concrete documents). -/
def jFields : List (String × Json) → Json
  | [] => Json.objNil
  | (k, v) :: rest => Json.objCons k v (jFields rest)

/-- Property read `o[k]`: first matching key of an object chain; `none` for
missing keys and for non-objects (JavaScript yields `undefined`; reading a
property of `null`, which throws in JavaScript, is also modelled as `none`). -/
def getKey : Json → String → Option Json
  | Json.objCons k v rest, key => if k = key then some v else getKey rest key
  | _, _ => none

/-- Property write `o[k] = v`: updates the first matching key in place, appends
the key if absent, and leaves non-objects unchanged. -/
def setField : Json → String → Json → Json
  | Json.objCons k v rest, key, nv =>
      if k = key then Json.objCons k nv rest else Json.objCons k v (setField rest key nv)
  | Json.objNil, key, nv => Json.objCons key nv Json.objNil
  | j, _, _ => j

/-- JavaScript truthiness of a value. -/
def truthy : Json → Bool
  | Json.null => false
  | Json.boolVal b => b
  | Json.numVal n => n != 0
  | Json.str s => !s.data.isEmpty
  | Json.arrNil => true
  | Json.arrCons _ _ => true
  | Json.objNil => true
  | Json.objCons _ _ _ => true

/-- Truthiness of the property `o[k]` (`undefined`, hence falsy, when absent). -/
def truthyKey (j : Json) (k : String) : Bool :=
  match getKey j k with
  | some v => truthy v
  | none => false

/-- The acceptance check both parse attempts share (route.ts lines 66 and 71):
`typeof x === 'object' && x !== null && (x.swagger || x.openapi)`.  For every
non-object (and for `null`) both property reads give `undefined`, so the
key-based test alone is equivalent. -/
def isCandidate (j : Json) : Bool :=
  truthyKey j "swagger" || truthyKey j "openapi"

/-- Character-list primitive for `String.startsWith` that evaluates in the
kernel (JavaScript `startsWith`; code points coincide with UTF-16 units on the
ASCII strings the code compares). -/
def strStarts (s pre : String) : Bool := pre.data.isPrefixOf s.data

/-- Character-count primitive for `substring(n)` / dropping a prefix. -/
def strDropChars (s : String) (n : Nat) : String := String.mk (s.data.drop n)

/-- Character length of a string. -/
def strLen (s : String) : Nat := s.data.length

/-- Lexicographic strict order on character lists, the order JavaScript `<`/`>`
use on strings (comparison of UTF-16 code units; identical to code-point order
on the ASCII version strings compared here). -/
def charListLt : List Char → List Char → Bool
  | _, [] => false
  | [], _ :: _ => true
  | a :: as, b :: bs =>
      if a.val < b.val then true
      else if b.val < a.val then false
      else charListLt as bs

/-- JavaScript string comparison `a > b`. -/
def strGt (a b : String) : Bool := charListLt b.data a.data

/-- ASCII lower-casing of one character (`String.prototype.toLowerCase` on the
ASCII method names compared by the graph builder). -/
def lowerChar (c : Char) : Char :=
  if 65 ≤ c.toNat && c.toNat ≤ 90 then Char.ofNat (c.toNat + 32) else c

/-- ASCII lower-casing of a string. -/
def lowerStr (s : String) : String := String.mk (s.data.map lowerChar)

/-- The recursive `$ref` collector `findRefs` of DependencyGraphViewer (viewer
lines 113-137), as the pure list of reference targets it returns: every string
value of a `$ref` key that starts with the container prefix `pre` contributes
the remainder of the string, in discovery order (key order, recursing into
arrays and into non-string `$ref` values exactly as the `for (const key in
obj)` loop does).  The side effect on the usage map performed by the same
function when a referencing schema name is supplied is modelled separately by
`recordSchemaRef`/`scanRefList` below, which replay this list against the map;
the interleaving is immaterial because the traversal never reads the map. -/
def findRefs (pre : String) : Json → List String
  | Json.null => []
  | Json.boolVal _ => []
  | Json.numVal _ => []
  | Json.str _ => []
  | Json.arrNil => []
  | Json.arrCons x xs => findRefs pre x ++ findRefs pre xs
  | Json.objNil => []
  | Json.objCons k v rest =>
      (if k = "$ref" then
        match v with
        | Json.str s => if strStarts s pre then [strDropChars s (strLen pre)] else []
        | v2 => findRefs pre v2
      else findRefs pre v) ++ findRefs pre rest

/-- The pre-validation version override shared by route.ts lines 84-88 and
openapi-upload-form.tsx lines 125-130: when `openapi` is a truthy string that
starts with `"3.0."` and is lexicographically greater than `"3.0.3"`, it is
rewritten to `"3.0.3"` and the override flag is raised. -/
def normalizeVersion (j : Json) : Json × Bool :=
  match getKey j "openapi" with
  | some (Json.str v) =>
      if truthy (Json.str v) && strStarts v "3.0." && strGt v "3.0.3" then
        (setField j "openapi" (Json.str "3.0.3"), true)
      else (j, false)
  | _ => (j, false)

/-- The `openapi` field as the text interpolated into template strings
(`originalVersionFromFile` in the upload form); only read in messages emitted
after an override, when the field is known to be a string. -/
def openapiFieldText (j : Json) : String :=
  match getKey j "openapi" with
  | some (Json.str s) => s
  | _ => "undefined"

/-- Format detection of the live URL proxy route (route.ts lines 64-81).
`yamlParse`/`jsonParse` stand for `YAML.load` and `JSON.parse` (`Except.error`
models a thrown exception).  Control flow of the source: the YAML result is
checked; only when YAML *returned* a non-candidate is JSON tried inside a
nested `try`; a YAML *throw* jumps straight to the outer `catch (parseError)`,
which wraps whatever message reached it. -/
def detectRoute (yamlParse jsonParse : String → Except String Json)
    (specUrl text : String) : Except String Json :=
  match yamlParse text with
  | Except.ok v =>
      if isCandidate v then Except.ok v
      else
        match jsonParse text with
        | Except.ok w =>
            if isCandidate w then Except.ok w
            else Except.error ("Failed to parse specification from " ++ specUrl ++
              ". Content is not valid YAML or JSON. Error: Content is not valid YAML or JSON.")
        | Except.error _ =>
            Except.error ("Failed to parse specification from " ++ specUrl ++
              ". Content is not valid YAML or JSON. Error: Content is not valid YAML or JSON.")
  | Except.error e =>
      Except.error ("Failed to parse specification from " ++ specUrl ++
        ". Content is not valid YAML or JSON. Error: " ++ e)

/-- The whole success path of the live URL proxy route (route.ts lines 64-104):
detect the format, normalize the version, then `SwaggerParser.bundle` (taken as
the parameter `bundle`; the `JSON.parse(JSON.stringify(...))` deep copy before
it is the identity on value trees); any bundling failure is wrapped once and
surfaced (lines 95-99 — this route performs no retry).  Returns the bundled
document, its YAML dump (`yamlDump` models `YAML.dump`) and the override flag. -/
def routePipeline (yamlParse jsonParse : String → Except String Json)
    (bundle : Json → Except String Json) (yamlDump : Json → String)
    (specUrl text : String) : Except String (Json × String × Bool) :=
  match detectRoute yamlParse jsonParse specUrl text with
  | Except.error e => Except.error e
  | Except.ok parsedSpec =>
      match normalizeVersion parsedSpec with
      | (spec2, versionOverridden) =>
          match bundle spec2 with
          | Except.ok validated => Except.ok (validated, yamlDump validated, versionOverridden)
          | Except.error e =>
              Except.error ("Failed to validate/bundle spec from " ++ specUrl ++ ": " ++ e)

/-- Extension test of the upload form (openapi-upload-form.tsx line 117). -/
def isYamlExt (fileName : String) : Bool :=
  ".yaml".data.isSuffixOf fileName.data || ".yml".data.isSuffixOf fileName.data

/-- File-content parsing of the upload form (lines 117-121): the extension
selects the single parser that is run; there is no second attempt. -/
def parseFileContent (yamlParse jsonParse : String → Except String Json)
    (fileName text : String) : Except String Json :=
  if isYamlExt fileName then yamlParse text else jsonParse text

/-- The file-upload ingestion path of OpenApiUploadForm.onSubmit (lines
111-141): parse by extension, apply the shared version override, then
`SwaggerParser.bundle`; when bundling fails after an override the error is
re-worded to mention the override, otherwise it is rethrown unchanged.
Returns the bundled document, its YAML dump and the override flag. -/
def filePipeline (yamlParse jsonParse : String → Except String Json)
    (bundle : Json → Except String Json) (yamlDump : Json → String)
    (fileName text : String) : Except String (Json × String × Bool) :=
  match parseFileContent yamlParse jsonParse fileName text with
  | Except.error e => Except.error e
  | Except.ok parsed =>
      match normalizeVersion parsed with
      | (spec2, wasVersionOverridden) =>
          match bundle spec2 with
          | Except.ok specObject =>
              Except.ok (specObject, yamlDump specObject, wasVersionOverridden)
          | Except.error e =>
              if wasVersionOverridden then
                Except.error ("Failed to bundle after overriding file version from " ++
                  openapiFieldText parsed ++ " to 3.0.3: " ++ e)
              else Except.error e

/-- The active-specification store state (spec §3/§4.5; the zustand store file
src/stores/openapi-store is not in the source snapshot). -/
structure StoreState where
  document : Option Json
  rawText : Option String
  name : Option String
  id : Option String
  loading : Bool
  error : Option String
deriving DecidableEq

/-- Modelled from the spec: store setter `setLoading` of the missing
openapi-store — updates only the loading flag. -/
def setLoading (s : StoreState) (b : Bool) : StoreState := { s with loading := b }

/-- Modelled from the spec: store setter `setError` of the missing
openapi-store — updates only the error field. -/
def setError (s : StoreState) (e : Option String) : StoreState := { s with error := e }

/-- Modelled from the spec: store setter `setSpec` of the missing
openapi-store — atomically replaces document, rawText, name and id. -/
def setSpec (s : StoreState) (doc : Json) (raw nm ident : String) : StoreState :=
  { s with document := some doc, rawText := some raw, name := some nm, id := some ident }

/-- What a successful run of the onSubmit try-block hands to the store. -/
structure LoadSuccess where
  specObject : Json
  rawSpecText : String
  name : String
deriving DecidableEq

/-- The store-transition skeleton of OpenApiUploadForm.onSubmit (lines 53-193):
`setLoading(true)`, `setError(null)`, then the try-block (abstracted as `res`;
`freshId` is the impurely generated `newSpecId`); on success `setSpec`, on
failure `setError(message)`; in both cases `finally setLoading(false)`. -/
def onSubmit (s : StoreState) (freshId : String) (res : Except String LoadSuccess) : StoreState :=
  match res with
  | Except.ok r =>
      setLoading (setSpec (setError (setLoading s true) none) r.specObject r.rawSpecText r.name freshId) false
  | Except.error msg =>
      setLoading (setError (setError (setLoading s true) none) (some msg)) false

/-- onSubmit specialised to the file-upload branch: the try-block runs
`filePipeline` and hands its output to the store with the file name. -/
def onSubmitFile (yamlParse jsonParse : String → Except String Json)
    (bundle : Json → Except String Json) (yamlDump : Json → String)
    (s : StoreState) (freshId fileName text : String) : StoreState :=
  onSubmit s freshId
    (match filePipeline yamlParse jsonParse bundle yamlDump fileName text with
      | Except.ok (doc, raw, _) => Except.ok ⟨doc, raw, fileName⟩
      | Except.error e => Except.error e)

/-- Substring test on character lists (JavaScript `String.prototype.includes`). -/
def hasSub (pat : String) : List Char → Bool
  | [] => pat.data.isEmpty
  | c :: cs => pat.data.isPrefixOf (c :: cs) || hasSub pat cs

/-- JavaScript `msg.includes(pat)`. -/
def containsSub (msg pat : String) : Bool := hasSub pat msg.data

/-- Maximal leading digit run of a character list. -/
def digitRun : List Char → List Char
  | [] => []
  | c :: cs => if c.isDigit then c :: digitRun cs else []

/-- First full match of the regex of the older route variant,
`Unsupported OpenAPI version: (3\.0\.\d+)` : at the first position where the
literal part is followed by at least one digit, the capture is `"3.0."` plus
the maximal digit run (positions where the literal matches but no digit
follows are passed over, as a regex engine would). -/
def scanForVersion : List Char → Option String
  | [] => none
  | c :: cs =>
      if ("Unsupported OpenAPI version: 3.0.".data).isPrefixOf (c :: cs) then
        match digitRun ((c :: cs).drop (strLen "Unsupported OpenAPI version: 3.0.")) with
        | [] => scanForVersion cs
        | ds => some ("3.0." ++ String.mk ds)
      else scanForVersion cs

/-- The `match`/capture by the older route variant on a validation message. -/
def extractVersion (msg : String) : Option String := scanForVersion msg.data

/-- Validation stage of the older route variant (the unnamed duplicate of the
fetch-spec route, lines 75-99): `SwaggerParser.validate` (parameter `validate`;
the deep copies before each call are the identity on value trees) and, when the
first attempt fails with an "Unsupported OpenAPI version" message whose
captured `3.0.x` is lexicographically greater than `"3.0.3"` and no override
happened yet, a single downgrade-and-revalidate; a second failure is surfaced
with the override-mentioning prefix. -/
def validateStage_p1 (validate : Json → Except String Json) (specUrl : String)
    (versionOverridden : Bool) (parsedSpec : Json) : Except String (Json × Bool) :=
  match validate parsedSpec with
  | Except.ok v => Except.ok (v, versionOverridden)
  | Except.error e =>
      if !versionOverridden && containsSub e "Unsupported OpenAPI version" then
        match extractVersion e with
        | some ver =>
            if strGt ver "3.0.3" then
              match validate (setField parsedSpec "openapi" (Json.str "3.0.3")) with
              | Except.ok v => Except.ok (v, true)
              | Except.error e2 =>
                  Except.error ("Failed to validate spec from " ++ specUrl ++
                    " even after overriding version to 3.0.3: " ++ e2)
            else Except.error e
        | none => Except.error e
      else Except.error e

/-- Role of a schema use by an operation ('requestBody' | 'response' in the
viewer's SchemaUsage interface). -/
inductive Role where
  | requestBody
  | response
deriving DecidableEq

/-- Per-schema usage record of the viewer (interface SchemaUsage, viewer lines
23-26): operation uses in push order, and the names of the schemas that
reference this schema. -/
structure SchemaUsage where
  operations : List (String × String × Role)
  referencedBySchemas : List String
deriving DecidableEq

/-- A media type object as the builder reads it (`mediaType.schema`,
possibly absent/falsy). -/
structure MediaTypeObj where
  schema : Option Json
deriving DecidableEq

/-- A request body object that passed the `'content' in requestBody` test;
absent or `$ref` request bodies are `none` at the use site. -/
structure RequestBodyObj where
  content : List (String × MediaTypeObj)
deriving DecidableEq

/-- A response object; `content` is `none` when the `'content' in response &&
response.content` test fails. -/
structure ResponseObj where
  content : Option (List (String × MediaTypeObj))
deriving DecidableEq

/-- An operation object of a path item.  `responses = none` models an object
without a `responses` key (the gate at viewer line 157 skips it entirely);
`requestBody = none` models an absent request body or one without `content`. -/
structure OperationObj where
  requestBody : Option RequestBodyObj
  responses : Option (List (String × ResponseObj))
deriving DecidableEq

/-- The fixed HTTP method list of viewer line 154. -/
def httpMethods : List String :=
  ["get", "put", "post", "delete", "options", "head", "patch", "trace"]

/-- Lookup in the usage map (`schemaUsageMap.get`); the map is an association
list in key insertion order, read at the first matching key. -/
def getU : List (String × SchemaUsage) → String → Option SchemaUsage
  | [], _ => none
  | e :: m, k => if e.1 = k then some e.2 else getU m k

/-- Key membership in the usage map (`schemaUsageMap.has`). -/
def hasUsage : List (String × SchemaUsage) → String → Bool
  | [], _ => false
  | e :: m, k => if e.1 = k then true else hasUsage m k

/-- Point update of the usage map entry at a key. -/
def updateUsage : List (String × SchemaUsage) → String → (SchemaUsage → SchemaUsage) →
    List (String × SchemaUsage)
  | [], _, _ => []
  | e :: m, k, f => (if e.1 = k then (e.1, f e.2) else e) :: updateUsage m k f

/-- One side effect of `findRefs` when called with a referencing schema name
(viewer lines 123-128): when the map has the referenced name, push the
referencer onto its `referencedBySchemas` unless already present.  The
JavaScript truthiness test on the referencer name also skips the empty
string, which is modelled explicitly. -/
def recordSchemaRef (m : List (String × SchemaUsage)) (cur target : String) :
    List (String × SchemaUsage) :=
  if cur = "" then m
  else if hasUsage m target then
    updateUsage m target fun u =>
      if cur ∈ u.referencedBySchemas then u
      else { u with referencedBySchemas := u.referencedBySchemas ++ [cur] }
  else m

/-- Replays the reference list returned by `findRefs` against the map with a
fixed referencer, in discovery order (the pushes the source performs during
the traversal itself). -/
def scanRefList (m : List (String × SchemaUsage)) (cur : String) :
    List String → List (String × SchemaUsage)
  | [] => m
  | r :: rest => scanRefList (recordSchemaRef m cur r) cur rest

/-- Phase (a) of the builder (viewer lines 140-145): scan every container
schema body for references, recording the scanning schema as referencer. -/
def scanSchemaList (pre : String) (m : List (String × SchemaUsage)) :
    List (String × Json) → List (String × SchemaUsage)
  | [] => m
  | (n, body) :: rest => scanSchemaList pre (scanRefList m n (findRefs pre body)) rest

/-- `recordOperationUsage` (viewer lines 159-165): for each discovered name
that the map knows, push one `(path, method, role)` entry — duplicates are
kept. -/
def recordOpList (m : List (String × SchemaUsage)) (p mth : String) (role : Role) :
    List String → List (String × SchemaUsage)
  | [] => m
  | r :: rest =>
      recordOpList
        (if hasUsage m r then
          updateUsage m r fun u => { u with operations := u.operations ++ [(p, mth, role)] }
        else m) p mth role rest

/-- Walk of a `content` map of media types (viewer lines 170-175 and 181-187):
each media type with a truthy `schema` contributes the references of that
schema. -/
def scanContentList (pre : String) (m : List (String × SchemaUsage)) (p mth : String)
    (role : Role) : List (String × MediaTypeObj) → List (String × SchemaUsage)
  | [] => m
  | (_, mt) :: rest =>
      scanContentList pre
        (match mt.schema with
          | some s => recordOpList m p mth role (findRefs pre s)
          | none => m) p mth role rest

/-- Walk of an operation's `responses` (viewer lines 177-189). -/
def scanResponseList (pre : String) (m : List (String × SchemaUsage)) (p mth : String) :
    List (String × ResponseObj) → List (String × SchemaUsage)
  | [] => m
  | (_, resp) :: rest =>
      scanResponseList pre
        (match resp.content with
          | some cs => scanContentList pre m p mth Role.response cs
          | none => m) p mth rest

/-- Processing of one operation (viewer lines 156-189, v3 branch): an object
without a `responses` key is skipped whole (line 157), otherwise the request
body content is scanned first, then every response's content. -/
def scanOperation (pre : String) (m : List (String × SchemaUsage)) (p mth : String)
    (op : OperationObj) : List (String × SchemaUsage) :=
  match op.responses with
  | none => m
  | some rs =>
      scanResponseList pre
        (match op.requestBody with
          | some rb => scanContentList pre m p mth Role.requestBody rb.content
          | none => m) p mth rs

/-- Walk of one path item (viewer lines 153-157): every key whose
lower-cased form is in `httpMethods` is treated as an operation. -/
def scanPathItem (pre : String) (m : List (String × SchemaUsage)) (p : String) :
    List (String × OperationObj) → List (String × SchemaUsage)
  | [] => m
  | (mth, op) :: rest =>
      scanPathItem pre
        (if lowerStr mth ∈ httpMethods then scanOperation pre m p mth op else m) p rest

/-- Phase (b) of the builder (viewer lines 148-210): walk all paths. -/
def scanPathList (pre : String) (m : List (String × SchemaUsage)) :
    List (String × List (String × OperationObj)) → List (String × SchemaUsage)
  | [] => m
  | (p, item) :: rest => scanPathList pre (scanPathItem pre m p item) rest

/-- Map initialisation (viewer lines 106-110): one empty record per container
schema, in key order. -/
def initUsage : List (String × Json) → List (String × SchemaUsage)
  | [] => []
  | (n, _) :: rest => (n, ⟨[], []⟩) :: initUsage rest

/-- An OpenAPI v3 document as the builder reads it: `components.schemas` (empty
list when the container is absent, in which case both the initialisation and
phase (a) do nothing, as in the source) and `paths`. -/
structure ApiDocumentV3 where
  schemas : List (String × Json)
  paths : List (String × List (String × OperationObj))
deriving DecidableEq

/-- The container prefix for v3 (`'#/components/schemas/'`, viewer line 99). -/
def v3Pre : String := "#/components/schemas/"

/-- The complete usage map computed by DependencyGraphViewer for a v3
document (viewer lines 93-210). -/
def buildUsage (d : ApiDocumentV3) : List (String × SchemaUsage) :=
  scanPathList v3Pre (scanSchemaList v3Pre (initUsage d.schemas) d.schemas) d.paths

/-- The SchemaUsage computed for a schema name, if the name is in the container. -/
def usageOf (d : ApiDocumentV3) (s : String) : Option SchemaUsage :=
  getU (buildUsage d) s

/-- The `referencedBySchemas` list computed for a name (empty when absent). -/
def refByOf (d : ApiDocumentV3) (s : String) : List String :=
  match usageOf d s with
  | some u => u.referencedBySchemas
  | none => []

/-- The `operations` list computed for a name (empty when absent). -/
def opsOf (d : ApiDocumentV3) (s : String) : List (String × String × Role) :=
  match usageOf d s with
  | some u => u.operations
  | none => []

/-- Append-if-absent, the effect of the guarded push at viewer lines 125-127. -/
def addIfNew (l : List String) (x : String) : List String :=
  if x ∈ l then l else l ++ [x]

/-- Declarative form of phase (a) restricted to one referenced name `target`:
fold the container in order, adding each schema whose body contains a
reference to `target` (the empty referencer name is skipped by the JavaScript
truthiness test). -/
def collectRefBy (pre target : String) (acc : List String) :
    List (String × Json) → List String
  | [] => acc
  | (n, body) :: rest =>
      collectRefBy pre target
        (if n ≠ "" ∧ target ∈ findRefs pre body then addIfNew acc n else acc) rest

/-- Occurrence count of a string in a list. -/
def countOcc (x : String) : List String → Nat
  | [] => 0
  | r :: rest => (if r = x then 1 else 0) + countOcc x rest

/-- Occurrence count of an operation entry in a list. -/
def countEntry (e : String × String × Role) : List (String × String × Role) → Nat
  | [] => 0
  | x :: rest => (if x = e then 1 else 0) + countEntry e rest

/-- All references contributed by a `content` map of media types. -/
def contentRefs (pre : String) : List (String × MediaTypeObj) → List String
  | [] => []
  | (_, mt) :: rest =>
      (match mt.schema with | some s => findRefs pre s | none => []) ++ contentRefs pre rest

/-- All references contributed by an operation's `responses`. -/
def respRefsAll (pre : String) : List (String × ResponseObj) → List String
  | [] => []
  | (_, resp) :: rest =>
      (match resp.content with | some cs => contentRefs pre cs | none => []) ++
      respRefsAll pre rest

/-- All references contributed by an operation's request body. -/
def rbRefs (pre : String) (op : OperationObj) : List String :=
  match op.requestBody with
  | some rb => contentRefs pre rb.content
  | none => []

/-- The operation entries one operation pushes for the schema `target`:
nothing when the `responses` key is absent; otherwise one `requestBody` entry
per reference occurrence in the request body content, then one `response`
entry per reference occurrence in the responses. -/
def opEvents (pre p mth : String) (op : OperationObj) (target : String) :
    List (String × String × Role) :=
  match op.responses with
  | none => []
  | some rs =>
      List.replicate (countOcc target (rbRefs pre op)) (p, mth, Role.requestBody) ++
      List.replicate (countOcc target (respRefsAll pre rs)) (p, mth, Role.response)

/-- The entries one path item pushes for `target`, in key order. -/
def itemEvents (pre p target : String) :
    List (String × OperationObj) → List (String × String × Role)
  | [] => []
  | (mth, op) :: rest =>
      (if lowerStr mth ∈ httpMethods then opEvents pre p mth op target else []) ++
      itemEvents pre p target rest

/-- The entries the whole paths object pushes for `target`, in key order. -/
def pathEvents (pre target : String) :
    List (String × List (String × OperationObj)) → List (String × String × Role)
  | [] => []
  | (p, item) :: rest => itemEvents pre p target item ++ pathEvents pre target rest

/-- The references occurring in the response contents of the operations stored
at a given path and method key (with the same method gate as the builder). -/
def respRefsAtItem (pre mth : String) : List (String × OperationObj) → List String
  | [] => []
  | (m2, op) :: rest =>
      (if m2 = mth ∧ lowerStr m2 ∈ httpMethods then
        match op.responses with | some rs => respRefsAll pre rs | none => []
      else []) ++ respRefsAtItem pre mth rest

/-- The response-content references of the operations at `(p, mth)`. -/
def responseRefsAt (pre p mth : String) :
    List (String × List (String × OperationObj)) → List String
  | [] => []
  | (p2, item) :: rest =>
      (if p2 = p then respRefsAtItem pre mth item else []) ++ responseRefsAt pre p mth rest

/-- The `referencedBySchemas` component of a map entry, `[]` when absent. -/
def refsAt (m : List (String × SchemaUsage)) (k : String) : List String :=
  ((getU m k).map (fun u => u.referencedBySchemas)).getD []

/-- The `operations` component of a map entry, `[]` when absent. -/
def opsAt (m : List (String × SchemaUsage)) (k : String) : List (String × String × Role) :=
  ((getU m k).map (fun u => u.operations)).getD []

theorem mem_addIfNew {l : List String} {x y : String} :
    y ∈ addIfNew l x ↔ y ∈ l ∨ y = x := by
  unfold addIfNew
  split
  · next h => constructor
              · exact fun hy => Or.inl hy
              · rintro (hy | rfl)
                · exact hy
                · exact h
  · simp

theorem addIfNew_idem (l : List String) (x : String) :
    addIfNew (addIfNew l x) x = addIfNew l x := by
  unfold addIfNew
  split
  · next h => simp [h]
  · simp

theorem addIfNew_nodup {l : List String} (h : l.Nodup) (x : String) :
    (addIfNew l x).Nodup := by
  unfold addIfNew
  split
  · exact h
  · next hx => simp [List.nodup_append, h, hx]

theorem countOcc_append (x : String) (a b : List String) :
    countOcc x (a ++ b) = countOcc x a + countOcc x b := by
  induction a with
  | nil => simp [countOcc]
  | cons r rest ih => simp [countOcc, ih, Nat.add_assoc]

theorem countOcc_ne_zero {x : String} {l : List String} :
    countOcc x l ≠ 0 ↔ x ∈ l := by
  induction l with
  | nil => simp [countOcc]
  | cons r rest ih =>
      by_cases h : r = x
      · subst h
        simp [countOcc]
      · simp [countOcc, h, ih, Ne.symm h]

theorem countEntry_append (e : String × String × Role) (a b : List (String × String × Role)) :
    countEntry e (a ++ b) = countEntry e a + countEntry e b := by
  induction a with
  | nil => simp [countEntry]
  | cons r rest ih => simp [countEntry, ih, Nat.add_assoc]

theorem countEntry_replicate (e x : String × String × Role) (n : Nat) :
    countEntry e (List.replicate n x) = if x = e then n else 0 := by
  induction n with
  | zero => simp [countEntry]
  | succ k ih =>
      simp [List.replicate_succ, countEntry, ih]
      split <;> simp [Nat.add_comm]


theorem getU_updateUsage (m : List (String × SchemaUsage)) (k : String)
    (f : SchemaUsage → SchemaUsage) (s : String) :
    getU (updateUsage m k f) s = if s = k then (getU m k).map f else getU m s := by
  induction m with
  | nil => simp [updateUsage, getU]
  | cons e m ih =>
      obtain ⟨a, b⟩ := e
      by_cases h1 : a = k
      · subst h1
        by_cases h2 : a = s
        · subst h2
          simp [updateUsage, getU]
        · have h3 : ¬s = a := fun h => h2 h.symm
          simp [updateUsage, getU, h2, h3, ih]
      · by_cases h2 : a = s
        · subst h2
          have h3 : ¬a = k := h1
          simp [updateUsage, getU, h3]
        · simp [updateUsage, getU, h1, h2, ih]

theorem hasUsage_eq (m : List (String × SchemaUsage)) (k : String) :
    hasUsage m k = (getU m k).isSome := by
  induction m with
  | nil => simp [hasUsage, getU]
  | cons e m ih =>
      by_cases h : e.1 = k <;> simp [hasUsage, getU, h, ih]

theorem isSome_updateUsage (m : List (String × SchemaUsage)) (k : String)
    (f : SchemaUsage → SchemaUsage) (s : String) :
    (getU (updateUsage m k f) s).isSome = (getU m s).isSome := by
  rw [getU_updateUsage]
  by_cases h : s = k <;> simp [h]

theorem push_refBy_operations (u : SchemaUsage) (cur : String) :
    (if cur ∈ u.referencedBySchemas then u
      else { u with referencedBySchemas := u.referencedBySchemas ++ [cur] }).operations =
      u.operations := by
  split <;> rfl

theorem push_refBy_referenced (u : SchemaUsage) (cur : String) :
    (if cur ∈ u.referencedBySchemas then u
      else { u with referencedBySchemas := u.referencedBySchemas ++ [cur] }).referencedBySchemas =
      addIfNew u.referencedBySchemas cur := by
  unfold addIfNew
  split <;> rfl

theorem isSome_recordSchemaRef (m : List (String × SchemaUsage)) (cur t s : String) :
    (getU (recordSchemaRef m cur t) s).isSome = (getU m s).isSome := by
  unfold recordSchemaRef
  split
  · rfl
  · split
    · rw [isSome_updateUsage]
    · rfl

theorem opsAt_recordSchemaRef (m : List (String × SchemaUsage)) (cur t s : String) :
    opsAt (recordSchemaRef m cur t) s = opsAt m s := by
  unfold recordSchemaRef
  split
  · rfl
  · split
    · unfold opsAt
      rw [getU_updateUsage]
      by_cases h : s = t
      · subst h
        rw [if_pos rfl]
        cases getU m s with
        | none => rfl
        | some u => simp [push_refBy_operations]
      · rw [if_neg h]
    · rfl

theorem refsAt_recordSchemaRef (m : List (String × SchemaUsage)) (cur t s : String) :
    refsAt (recordSchemaRef m cur t) s =
      if s = t ∧ cur ≠ "" ∧ (getU m s).isSome = true then addIfNew (refsAt m s) cur
      else refsAt m s := by
  unfold recordSchemaRef
  by_cases hc : cur = ""
  · simp [hc]
  · rw [if_neg hc, hasUsage_eq]
    by_cases hsome : (getU m t).isSome = true
    · rw [if_pos hsome]
      unfold refsAt
      rw [getU_updateUsage]
      by_cases hst : s = t
      · subst hst
        rw [if_pos rfl]
        cases hu : getU m s with
        | none => rw [hu] at hsome; simp at hsome
        | some u => simp [hc, push_refBy_referenced]
      · rw [if_neg hst, if_neg (fun h => hst h.1 : ¬(s = t ∧ cur ≠ "" ∧ (getU m s).isSome = true))]
    · rw [if_neg hsome]
      by_cases hst : s = t
      · subst hst
        rw [if_neg (fun h => hsome h.2.2 : ¬(s = s ∧ cur ≠ "" ∧ (getU m s).isSome = true))]
      · rw [if_neg (fun h => hst h.1 : ¬(s = t ∧ cur ≠ "" ∧ (getU m s).isSome = true))]

theorem isSome_scanRefList (cur : String) (names : List String) :
    ∀ m s, (getU (scanRefList m cur names) s).isSome = (getU m s).isSome := by
  induction names with
  | nil => intro m s; rfl
  | cons r rest ih =>
      intro m s
      unfold scanRefList
      rw [ih, isSome_recordSchemaRef]

theorem opsAt_scanRefList (cur : String) (names : List String) :
    ∀ m s, opsAt (scanRefList m cur names) s = opsAt m s := by
  induction names with
  | nil => intro m s; rfl
  | cons r rest ih =>
      intro m s
      unfold scanRefList
      rw [ih, opsAt_recordSchemaRef]

theorem refsAt_scanRefList (cur : String) (names : List String) :
    ∀ m s, refsAt (scanRefList m cur names) s =
      if s ∈ names ∧ cur ≠ "" ∧ (getU m s).isSome = true then addIfNew (refsAt m s) cur
      else refsAt m s := by
  induction names with
  | nil => intro m s; simp [scanRefList]
  | cons r rest ih =>
      intro m s
      unfold scanRefList
      rw [ih, refsAt_recordSchemaRef, isSome_recordSchemaRef]
      by_cases hc : cur = ""
      · simp [hc]
      · by_cases hsome : (getU m s).isSome = true
        · by_cases h1 : s = r
          · subst h1
            by_cases h2 : s ∈ rest <;> simp [h2, hc, hsome, addIfNew_idem]
          · by_cases h2 : s ∈ rest <;> simp [h1, h2, hc, hsome]
        · simp [hsome]

theorem isSome_scanSchemaList (pre : String) (schemas : List (String × Json)) :
    ∀ m s, (getU (scanSchemaList pre m schemas) s).isSome = (getU m s).isSome := by
  induction schemas with
  | nil => intro m s; rfl
  | cons e rest ih =>
      intro m s
      obtain ⟨n, body⟩ := e
      unfold scanSchemaList
      rw [ih, isSome_scanRefList]

theorem opsAt_scanSchemaList (pre : String) (schemas : List (String × Json)) :
    ∀ m s, opsAt (scanSchemaList pre m schemas) s = opsAt m s := by
  induction schemas with
  | nil => intro m s; rfl
  | cons e rest ih =>
      intro m s
      obtain ⟨n, body⟩ := e
      unfold scanSchemaList
      rw [ih, opsAt_scanRefList]

theorem refsAt_scanSchemaList (pre : String) (schemas : List (String × Json)) :
    ∀ m s, refsAt (scanSchemaList pre m schemas) s =
      if (getU m s).isSome = true then collectRefBy pre s (refsAt m s) schemas
      else refsAt m s := by
  induction schemas with
  | nil => intro m s; simp [scanSchemaList, collectRefBy]
  | cons e rest ih =>
      intro m s
      obtain ⟨n, body⟩ := e
      unfold scanSchemaList collectRefBy
      rw [ih, isSome_scanRefList, refsAt_scanRefList]
      by_cases hsome : (getU m s).isSome = true
      · by_cases h1 : n = "" <;> by_cases h2 : s ∈ findRefs pre body <;>
          simp [h1, h2, hsome]
      · simp [hsome]

theorem isSome_recordOpList (p mth : String) (role : Role) (names : List String) :
    ∀ m s, (getU (recordOpList m p mth role names) s).isSome = (getU m s).isSome := by
  induction names with
  | nil => intro m s; rfl
  | cons r rest ih =>
      intro m s
      unfold recordOpList
      rw [ih]
      split
      · rw [isSome_updateUsage]
      · rfl

theorem refsAt_recordOpList (p mth : String) (role : Role) (names : List String) :
    ∀ m s, refsAt (recordOpList m p mth role names) s = refsAt m s := by
  induction names with
  | nil => intro m s; rfl
  | cons r rest ih =>
      intro m s
      unfold recordOpList
      rw [ih]
      split
      · unfold refsAt
        rw [getU_updateUsage]
        by_cases h : s = r
        · subst h
          rw [if_pos rfl]
          cases getU m s with
          | none => rfl
          | some u => rfl
        · rw [if_neg h]
      · rfl

theorem opsAt_recordOpList (p mth : String) (role : Role) (names : List String) :
    ∀ m s, opsAt (recordOpList m p mth role names) s =
      opsAt m s ++
        (if (getU m s).isSome = true then List.replicate (countOcc s names) (p, mth, role)
          else []) := by
  induction names with
  | nil => intro m s; simp [recordOpList, countOcc]
  | cons r rest ih =>
      intro m s
      unfold recordOpList
      rw [ih, hasUsage_eq]
      by_cases h : s = r
      · subst h
        cases hu : getU m s with
        | none => simp [hu, countOcc]
        | some u =>
            have hupd : getU (updateUsage m s fun v =>
                { v with operations := v.operations ++ [(p, mth, role)] }) s =
                some { u with operations := u.operations ++ [(p, mth, role)] } := by
              rw [getU_updateUsage, if_pos rfl, hu]
              rfl
            have hrep : List.replicate (1 + countOcc s rest) ((p, mth, role)) =
                (p, mth, role) :: List.replicate (countOcc s rest) ((p, mth, role)) := by
              rw [Nat.add_comm]
              rfl
            simp [hu, hupd, opsAt, countOcc, hrep]
      · have hne : ¬r = s := fun hh => h hh.symm
        have hcount : countOcc s (r :: rest) = countOcc s rest := by
          simp [countOcc, hne]
        rw [hcount]
        split
        · have hgu : getU (updateUsage m r fun u =>
              { u with operations := u.operations ++ [(p, mth, role)] }) s = getU m s := by
            rw [getU_updateUsage, if_neg h]
          unfold opsAt
          rw [hgu]
        · rfl

theorem isSome_scanContentList (pre p mth : String) (role : Role)
    (cs : List (String × MediaTypeObj)) :
    ∀ m s, (getU (scanContentList pre m p mth role cs) s).isSome = (getU m s).isSome := by
  induction cs with
  | nil => intro m s; rfl
  | cons e rest ih =>
      intro m s
      obtain ⟨ct, mt⟩ := e
      unfold scanContentList
      rw [ih]
      cases mt.schema with
      | none => rfl
      | some sc => rw [isSome_recordOpList]

theorem refsAt_scanContentList (pre p mth : String) (role : Role)
    (cs : List (String × MediaTypeObj)) :
    ∀ m s, refsAt (scanContentList pre m p mth role cs) s = refsAt m s := by
  induction cs with
  | nil => intro m s; rfl
  | cons e rest ih =>
      intro m s
      obtain ⟨ct, mt⟩ := e
      unfold scanContentList
      rw [ih]
      cases mt.schema with
      | none => rfl
      | some sc => rw [refsAt_recordOpList]

theorem opsAt_scanContentList (pre p mth : String) (role : Role)
    (cs : List (String × MediaTypeObj)) :
    ∀ m s, opsAt (scanContentList pre m p mth role cs) s =
      opsAt m s ++
        (if (getU m s).isSome = true then
          List.replicate (countOcc s (contentRefs pre cs)) (p, mth, role)
        else []) := by
  induction cs with
  | nil => intro m s; simp [scanContentList, contentRefs, countOcc]
  | cons e rest ih =>
      intro m s
      obtain ⟨ct, mt⟩ := e
      unfold scanContentList contentRefs
      rw [ih]
      cases mt.schema with
      | none => rfl
      | some sc =>
          rw [opsAt_recordOpList, isSome_recordOpList]
          cases hsome : (getU m s).isSome
          · simp only [Bool.false_eq_true, if_false, List.append_nil]
          · simp only [if_true, countOcc_append, List.replicate_add, List.append_assoc]

theorem isSome_scanResponseList (pre p mth : String) (rs : List (String × ResponseObj)) :
    ∀ m s, (getU (scanResponseList pre m p mth rs) s).isSome = (getU m s).isSome := by
  induction rs with
  | nil => intro m s; rfl
  | cons e rest ih =>
      intro m s
      obtain ⟨sc, resp⟩ := e
      unfold scanResponseList
      rw [ih]
      cases resp.content with
      | none => rfl
      | some cs => rw [isSome_scanContentList]

theorem refsAt_scanResponseList (pre p mth : String) (rs : List (String × ResponseObj)) :
    ∀ m s, refsAt (scanResponseList pre m p mth rs) s = refsAt m s := by
  induction rs with
  | nil => intro m s; rfl
  | cons e rest ih =>
      intro m s
      obtain ⟨sc, resp⟩ := e
      unfold scanResponseList
      rw [ih]
      cases resp.content with
      | none => rfl
      | some cs => rw [refsAt_scanContentList]

theorem opsAt_scanResponseList (pre p mth : String) (rs : List (String × ResponseObj)) :
    ∀ m s, opsAt (scanResponseList pre m p mth rs) s =
      opsAt m s ++
        (if (getU m s).isSome = true then
          List.replicate (countOcc s (respRefsAll pre rs)) (p, mth, Role.response)
        else []) := by
  induction rs with
  | nil => intro m s; simp [scanResponseList, respRefsAll, countOcc]
  | cons e rest ih =>
      intro m s
      obtain ⟨sc, resp⟩ := e
      unfold scanResponseList respRefsAll
      rw [ih]
      cases resp.content with
      | none => rfl
      | some cs =>
          rw [opsAt_scanContentList, isSome_scanContentList]
          cases hsome : (getU m s).isSome
          · simp only [Bool.false_eq_true, if_false, List.append_nil]
          · simp only [if_true, countOcc_append, List.replicate_add, List.append_assoc]

theorem isSome_scanOperation (pre p mth : String) (op : OperationObj) :
    ∀ m s, (getU (scanOperation pre m p mth op) s).isSome = (getU m s).isSome := by
  intro m s
  unfold scanOperation
  cases op.responses with
  | none => rfl
  | some rs =>
      rw [isSome_scanResponseList]
      cases op.requestBody with
      | none => rfl
      | some rb => rw [isSome_scanContentList]

theorem refsAt_scanOperation (pre p mth : String) (op : OperationObj) :
    ∀ m s, refsAt (scanOperation pre m p mth op) s = refsAt m s := by
  intro m s
  unfold scanOperation
  cases op.responses with
  | none => rfl
  | some rs =>
      rw [refsAt_scanResponseList]
      cases op.requestBody with
      | none => rfl
      | some rb => rw [refsAt_scanContentList]

theorem opsAt_scanOperation (pre p mth : String) (op : OperationObj) :
    ∀ m s, opsAt (scanOperation pre m p mth op) s =
      opsAt m s ++ (if (getU m s).isSome = true then opEvents pre p mth op s else []) := by
  intro m s
  unfold scanOperation opEvents
  cases op.responses with
  | none => simp
  | some rs =>
      rw [opsAt_scanResponseList]
      cases hb : op.requestBody with
      | none =>
          unfold rbRefs
          rw [hb]
          cases hsome : (getU m s).isSome <;> simp [hsome, countOcc]
      | some rb =>
          unfold rbRefs
          rw [hb, opsAt_scanContentList, isSome_scanContentList]
          cases hsome : (getU m s).isSome <;> simp [hsome]

theorem isSome_scanPathItem (pre p : String) (item : List (String × OperationObj)) :
    ∀ m s, (getU (scanPathItem pre m p item) s).isSome = (getU m s).isSome := by
  induction item with
  | nil => intro m s; rfl
  | cons e rest ih =>
      intro m s
      obtain ⟨mth, op⟩ := e
      unfold scanPathItem
      rw [ih]
      split
      · rw [isSome_scanOperation]
      · rfl

theorem refsAt_scanPathItem (pre p : String) (item : List (String × OperationObj)) :
    ∀ m s, refsAt (scanPathItem pre m p item) s = refsAt m s := by
  induction item with
  | nil => intro m s; rfl
  | cons e rest ih =>
      intro m s
      obtain ⟨mth, op⟩ := e
      unfold scanPathItem
      rw [ih]
      split
      · rw [refsAt_scanOperation]
      · rfl

theorem opsAt_scanPathItem (pre p : String) (item : List (String × OperationObj)) :
    ∀ m s, opsAt (scanPathItem pre m p item) s =
      opsAt m s ++ (if (getU m s).isSome = true then itemEvents pre p s item else []) := by
  induction item with
  | nil => intro m s; simp [scanPathItem, itemEvents]
  | cons e rest ih =>
      intro m s
      obtain ⟨mth, op⟩ := e
      unfold scanPathItem itemEvents
      rw [ih]
      split
      · rw [opsAt_scanOperation, isSome_scanOperation]
        cases hsome : (getU m s).isSome
        · simp only [Bool.false_eq_true, if_false, List.append_nil]
        · simp only [if_true, List.append_assoc]
      · cases hsome : (getU m s).isSome
        · simp only [Bool.false_eq_true, if_false, List.append_nil]
        · simp only [if_true, List.nil_append]

theorem isSome_scanPathList (pre : String) (paths : List (String × List (String × OperationObj))) :
    ∀ m s, (getU (scanPathList pre m paths) s).isSome = (getU m s).isSome := by
  induction paths with
  | nil => intro m s; rfl
  | cons e rest ih =>
      intro m s
      obtain ⟨p, item⟩ := e
      unfold scanPathList
      rw [ih, isSome_scanPathItem]

theorem refsAt_scanPathList (pre : String) (paths : List (String × List (String × OperationObj))) :
    ∀ m s, refsAt (scanPathList pre m paths) s = refsAt m s := by
  induction paths with
  | nil => intro m s; rfl
  | cons e rest ih =>
      intro m s
      obtain ⟨p, item⟩ := e
      unfold scanPathList
      rw [ih, refsAt_scanPathItem]

theorem opsAt_scanPathList (pre : String) (paths : List (String × List (String × OperationObj))) :
    ∀ m s, opsAt (scanPathList pre m paths) s =
      opsAt m s ++ (if (getU m s).isSome = true then pathEvents pre s paths else []) := by
  induction paths with
  | nil => intro m s; simp [scanPathList, pathEvents]
  | cons e rest ih =>
      intro m s
      obtain ⟨p, item⟩ := e
      unfold scanPathList pathEvents
      rw [ih, opsAt_scanPathItem, isSome_scanPathItem]
      cases hsome : (getU m s).isSome
      · simp only [Bool.false_eq_true, if_false, List.append_nil]
      · simp only [if_true, List.append_assoc]

theorem getU_initUsage (schemas : List (String × Json)) (s : String) :
    getU (initUsage schemas) s =
      if s ∈ schemas.map Prod.fst then some ⟨[], []⟩ else none := by
  induction schemas with
  | nil => simp [initUsage, getU]
  | cons e rest ih =>
      obtain ⟨n, body⟩ := e
      by_cases h : n = s
      · subst h
        simp [initUsage, getU]
      · have h2 : ¬s = n := fun hh => h hh.symm
        by_cases hm : s ∈ List.map Prod.fst rest <;>
          simp [initUsage, getU, h, h2, ih, hm]

theorem refByOf_eq_refsAt (d : ApiDocumentV3) (s : String) :
    refByOf d s = refsAt (buildUsage d) s := by
  unfold refByOf refsAt usageOf
  cases getU (buildUsage d) s <;> rfl

theorem opsOf_eq_opsAt (d : ApiDocumentV3) (s : String) :
    opsOf d s = opsAt (buildUsage d) s := by
  unfold opsOf opsAt usageOf
  cases getU (buildUsage d) s <;> rfl

theorem usageOf_none (d : ApiDocumentV3) (s : String)
    (h : s ∉ d.schemas.map Prod.fst) : usageOf d s = none := by
  unfold usageOf buildUsage
  have h0 : getU (initUsage d.schemas) s = none := by
    rw [getU_initUsage, if_neg h]
  have h1 := isSome_scanSchemaList v3Pre d.schemas (initUsage d.schemas) s
  have h2 := isSome_scanPathList v3Pre d.paths
    (scanSchemaList v3Pre (initUsage d.schemas) d.schemas) s
  rw [h1, h0] at h2
  simp only [Option.isSome_none] at h2
  exact Option.not_isSome_iff_eq_none.mp (by rw [h2]; exact Bool.false_ne_true)

theorem usageOf_isSome (d : ApiDocumentV3) (s : String)
    (h : s ∈ d.schemas.map Prod.fst) : (usageOf d s).isSome = true := by
  unfold usageOf buildUsage
  rw [isSome_scanPathList, isSome_scanSchemaList, getU_initUsage, if_pos h]
  rfl

/-- Characterization of the computed `referencedBySchemas` lists: for a name
in the container, the list is exactly the in-order fold of phase (a). -/
theorem refByOf_char (d : ApiDocumentV3) (s : String)
    (h : s ∈ d.schemas.map Prod.fst) :
    refByOf d s = collectRefBy v3Pre s [] d.schemas := by
  rw [refByOf_eq_refsAt]
  unfold buildUsage
  rw [refsAt_scanPathList, refsAt_scanSchemaList, getU_initUsage, if_pos h]
  have hinit : refsAt (initUsage d.schemas) s = [] := by
    unfold refsAt
    rw [getU_initUsage, if_pos h]
    rfl
  rw [hinit]
  rfl

/-- Characterization of the computed `operations` lists: for a name in the
container, the list is exactly the in-order event list of phase (b). -/
theorem opsOf_char (d : ApiDocumentV3) (s : String)
    (h : s ∈ d.schemas.map Prod.fst) :
    opsOf d s = pathEvents v3Pre s d.paths := by
  rw [opsOf_eq_opsAt]
  unfold buildUsage
  rw [opsAt_scanPathList, isSome_scanSchemaList, getU_initUsage, if_pos h]
  have hops : opsAt (scanSchemaList v3Pre (initUsage d.schemas) d.schemas) s = [] := by
    rw [opsAt_scanSchemaList]
    unfold opsAt
    rw [getU_initUsage, if_pos h]
    rfl
  rw [hops]
  simp

theorem mem_collectRefBy (pre target x : String) (schemas : List (String × Json)) :
    ∀ acc, x ∈ collectRefBy pre target acc schemas ↔
      x ∈ acc ∨ (x ≠ "" ∧ ∃ b, (x, b) ∈ schemas ∧ target ∈ findRefs pre b) := by
  induction schemas with
  | nil => intro acc; simp [collectRefBy]
  | cons e rest ih =>
      intro acc
      obtain ⟨n, body⟩ := e
      unfold collectRefBy
      rw [ih]
      by_cases hcond : n ≠ "" ∧ target ∈ findRefs pre body
      · obtain ⟨hne, htg⟩ := hcond
        rw [if_pos (And.intro hne htg)]
        simp only [mem_addIfNew, List.mem_cons, Prod.mk.injEq]
        constructor
        · rintro ((hx | rfl) | ⟨hxne, b, hb, ht⟩)
          · exact Or.inl hx
          · exact Or.inr ⟨hne, body, Or.inl ⟨rfl, rfl⟩, htg⟩
          · exact Or.inr ⟨hxne, b, Or.inr hb, ht⟩
        · rintro (hx | ⟨hxne, b, (⟨rfl, rfl⟩ | hb), ht⟩)
          · exact Or.inl (Or.inl hx)
          · exact Or.inl (Or.inr rfl)
          · exact Or.inr ⟨hxne, b, hb, ht⟩
      · rw [if_neg hcond]
        simp only [List.mem_cons, Prod.mk.injEq]
        constructor
        · rintro (hx | ⟨hxne, b, hb, ht⟩)
          · exact Or.inl hx
          · exact Or.inr ⟨hxne, b, Or.inr hb, ht⟩
        · rintro (hx | ⟨hxne, b, (⟨rfl, rfl⟩ | hb), ht⟩)
          · exact Or.inl hx
          · exact absurd ⟨hxne, ht⟩ hcond
          · exact Or.inr ⟨hxne, b, hb, ht⟩

theorem nodup_collectRefBy (pre target : String) (schemas : List (String × Json)) :
    ∀ acc, acc.Nodup → (collectRefBy pre target acc schemas).Nodup := by
  induction schemas with
  | nil => intro acc h; exact h
  | cons e rest ih =>
      intro acc h
      obtain ⟨n, body⟩ := e
      unfold collectRefBy
      split
      · exact ih _ (addIfNew_nodup h n)
      · exact ih _ h

theorem mem_opEvents (pre p mth target : String) (op : OperationObj)
    (e : String × String × Role) :
    e ∈ opEvents pre p mth op target ↔
      ∃ rs, op.responses = some rs ∧
        ((e = (p, mth, Role.requestBody) ∧ target ∈ rbRefs pre op) ∨
          (e = (p, mth, Role.response) ∧ target ∈ respRefsAll pre rs)) := by
  cases hr : op.responses with
  | none => simp [opEvents, hr]
  | some rs =>
      simp only [opEvents, hr, List.mem_append, List.mem_replicate, Option.some.injEq]
      constructor
      · rintro (⟨hn, rfl⟩ | ⟨hn, rfl⟩)
        · exact ⟨rs, rfl, Or.inl ⟨rfl, countOcc_ne_zero.mp hn⟩⟩
        · exact ⟨rs, rfl, Or.inr ⟨rfl, countOcc_ne_zero.mp hn⟩⟩
      · rintro ⟨rs2, rfl, (⟨rfl, hm⟩ | ⟨rfl, hm⟩)⟩
        · exact Or.inl ⟨countOcc_ne_zero.mpr hm, rfl⟩
        · exact Or.inr ⟨countOcc_ne_zero.mpr hm, rfl⟩

theorem mem_itemEvents (pre p target : String) (item : List (String × OperationObj))
    (e : String × String × Role) :
    e ∈ itemEvents pre p target item ↔
      ∃ mth op, (mth, op) ∈ item ∧ lowerStr mth ∈ httpMethods ∧
        e ∈ opEvents pre p mth op target := by
  induction item with
  | nil => simp [itemEvents]
  | cons hd rest ih =>
      obtain ⟨mth0, op0⟩ := hd
      unfold itemEvents
      rw [List.mem_append, ih]
      by_cases hg : lowerStr mth0 ∈ httpMethods
      · rw [if_pos hg]
        constructor
        · rintro (he | ⟨mth, op, hmem, hg2, he⟩)
          · exact ⟨mth0, op0, List.mem_cons_self _ _, hg, he⟩
          · exact ⟨mth, op, List.mem_cons_of_mem _ hmem, hg2, he⟩
        · rintro ⟨mth, op, hmem, hg2, he⟩
          rcases List.mem_cons.mp hmem with hh | hh
          · rw [Prod.mk.injEq] at hh
            obtain ⟨rfl, rfl⟩ := hh
            exact Or.inl he
          · exact Or.inr ⟨mth, op, hh, hg2, he⟩
      · rw [if_neg hg]
        simp only [List.not_mem_nil, false_or]
        constructor
        · rintro ⟨mth, op, hmem, hg2, he⟩
          exact ⟨mth, op, List.mem_cons_of_mem _ hmem, hg2, he⟩
        · rintro ⟨mth, op, hmem, hg2, he⟩
          rcases List.mem_cons.mp hmem with hh | hh
          · rw [Prod.mk.injEq] at hh
            obtain ⟨rfl, rfl⟩ := hh
            exact absurd hg2 hg
          · exact ⟨mth, op, hh, hg2, he⟩

theorem mem_pathEvents (pre target : String)
    (paths : List (String × List (String × OperationObj))) (e : String × String × Role) :
    e ∈ pathEvents pre target paths ↔
      ∃ p item, (p, item) ∈ paths ∧ e ∈ itemEvents pre p target item := by
  induction paths with
  | nil => simp [pathEvents]
  | cons hd rest ih =>
      obtain ⟨p0, item0⟩ := hd
      unfold pathEvents
      rw [List.mem_append, ih]
      constructor
      · rintro (he | ⟨p, item, hmem, he⟩)
        · exact ⟨p0, item0, List.mem_cons_self _ _, he⟩
        · exact ⟨p, item, List.mem_cons_of_mem _ hmem, he⟩
      · rintro ⟨p, item, hmem, he⟩
        rcases List.mem_cons.mp hmem with hh | hh
        · rw [Prod.mk.injEq] at hh
          obtain ⟨rfl, rfl⟩ := hh
          exact Or.inl he
        · exact Or.inr ⟨p, item, hh, he⟩

theorem mem_respRefsAtItem (pre mth target : String) (item : List (String × OperationObj)) :
    target ∈ respRefsAtItem pre mth item ↔
      ∃ op rs, (mth, op) ∈ item ∧ lowerStr mth ∈ httpMethods ∧
        op.responses = some rs ∧ target ∈ respRefsAll pre rs := by
  induction item with
  | nil => simp [respRefsAtItem]
  | cons hd rest ih =>
      obtain ⟨m2, op0⟩ := hd
      unfold respRefsAtItem
      rw [List.mem_append, ih]
      by_cases hcond : m2 = mth ∧ lowerStr m2 ∈ httpMethods
      · obtain ⟨rfl, hg⟩ := hcond
        rw [if_pos (And.intro rfl hg)]
        constructor
        · rintro (he | ⟨op, rs, hmem, hg2, hr, ht⟩)
          · cases hr : op0.responses with
            | none => rw [hr] at he; simp at he
            | some rs => rw [hr] at he; exact ⟨op0, rs, List.mem_cons_self _ _, hg, hr, he⟩
          · exact ⟨op, rs, List.mem_cons_of_mem _ hmem, hg2, hr, ht⟩
        · rintro ⟨op, rs, hmem, hg2, hr, ht⟩
          rcases List.mem_cons.mp hmem with hh | hh
          · rw [Prod.mk.injEq] at hh
            obtain ⟨heq, rfl⟩ := hh
            rw [hr]
            exact Or.inl ht
          · exact Or.inr ⟨op, rs, hh, hg2, hr, ht⟩
      · rw [if_neg hcond]
        simp only [List.not_mem_nil, false_or]
        constructor
        · rintro ⟨op, rs, hmem, hg2, hr, ht⟩
          exact ⟨op, rs, List.mem_cons_of_mem _ hmem, hg2, hr, ht⟩
        · rintro ⟨op, rs, hmem, hg2, hr, ht⟩
          rcases List.mem_cons.mp hmem with hh | hh
          · rw [Prod.mk.injEq] at hh
            obtain ⟨heq, rfl⟩ := hh
            exact absurd ⟨heq.symm, heq ▸ hg2⟩ hcond
          · exact ⟨op, rs, hh, hg2, hr, ht⟩

theorem mem_responseRefsAt (pre p mth target : String)
    (paths : List (String × List (String × OperationObj))) :
    target ∈ responseRefsAt pre p mth paths ↔
      ∃ item, (p, item) ∈ paths ∧ target ∈ respRefsAtItem pre mth item := by
  induction paths with
  | nil => simp [responseRefsAt]
  | cons hd rest ih =>
      obtain ⟨p2, item0⟩ := hd
      unfold responseRefsAt
      rw [List.mem_append, ih]
      by_cases hp : p2 = p
      · subst hp
        rw [if_pos rfl]
        constructor
        · rintro (he | ⟨item, hmem, he⟩)
          · exact ⟨item0, List.mem_cons_self _ _, he⟩
          · exact ⟨item, List.mem_cons_of_mem _ hmem, he⟩
        · rintro ⟨item, hmem, he⟩
          rcases List.mem_cons.mp hmem with hh | hh
          · rw [Prod.mk.injEq] at hh
            obtain ⟨heq, rfl⟩ := hh
            exact Or.inl he
          · exact Or.inr ⟨item, hh, he⟩
      · rw [if_neg hp]
        simp only [List.not_mem_nil, false_or]
        constructor
        · rintro ⟨item, hmem, he⟩
          exact ⟨item, List.mem_cons_of_mem _ hmem, he⟩
        · rintro ⟨item, hmem, he⟩
          rcases List.mem_cons.mp hmem with hh | hh
          · exact absurd (congrArg Prod.fst hh).symm hp
          · exact ⟨item, hh, he⟩

/-- The response-role entries recorded at `(p, mth)` correspond exactly to the
response-content references of the operations stored there. -/
theorem respEntry_iff (pre target p mth : String)
    (paths : List (String × List (String × OperationObj))) :
    (p, mth, Role.response) ∈ pathEvents pre target paths ↔
      target ∈ responseRefsAt pre p mth paths := by
  rw [mem_pathEvents, mem_responseRefsAt]
  constructor
  · rintro ⟨p2, item, hmem, he⟩
    rcases (mem_itemEvents pre p2 target item _).mp he with ⟨mth2, op, hop, hg, he2⟩
    rcases (mem_opEvents pre p2 mth2 target op _).mp he2 with ⟨rs, hr, (⟨heq, ht⟩ | ⟨heq, ht⟩)⟩
    · exact absurd (congrArg (fun x => x.2.2) heq) (by simp)
    · obtain ⟨rfl, rfl⟩ : p = p2 ∧ mth = mth2 :=
        ⟨congrArg (fun x => x.1) heq, congrArg (fun x => x.2.1) heq⟩
      exact ⟨item, hmem, (mem_respRefsAtItem pre mth target item).mpr ⟨op, rs, hop, hg, hr, ht⟩⟩
  · rintro ⟨item, hmem, he⟩
    rcases (mem_respRefsAtItem pre mth target item).mp he with ⟨op, rs, hop, hg, hr, ht⟩
    exact ⟨p, item, hmem,
      (mem_itemEvents pre p target item _).mpr
        ⟨mth, op, hop, hg,
          (mem_opEvents pre p mth target op _).mpr ⟨rs, hr, Or.inr ⟨rfl, ht⟩⟩⟩⟩

theorem opsOf_empty_of_not_mem (d : ApiDocumentV3) (s : String)
    (h : s ∉ d.schemas.map Prod.fst) : opsOf d s = [] := by
  unfold opsOf
  rw [usageOf_none d s h]

theorem refByOf_empty_of_not_mem (d : ApiDocumentV3) (s : String)
    (h : s ∉ d.schemas.map Prod.fst) : refByOf d s = [] := by
  unfold refByOf
  rw [usageOf_none d s h]

theorem refBy_nodup_all (d : ApiDocumentV3) (s : String) : (refByOf d s).Nodup := by
  by_cases h : s ∈ d.schemas.map Prod.fst
  · rw [refByOf_char d s h]
    exact nodup_collectRefBy _ _ _ _ List.nodup_nil
  · rw [refByOf_empty_of_not_mem d s h]
    exact List.nodup_nil

theorem mem_refByOf (d : ApiDocumentV3) (s x : String) (h : s ∈ d.schemas.map Prod.fst) :
    x ∈ refByOf d s ↔ x ≠ "" ∧ ∃ b, (x, b) ∈ d.schemas ∧ s ∈ findRefs v3Pre b := by
  rw [refByOf_char d s h, mem_collectRefBy]
  simp

theorem respEntry_opsOf (d : ApiDocumentV3) (s p mth : String)
    (h : s ∈ d.schemas.map Prod.fst) :
    (p, mth, Role.response) ∈ opsOf d s ↔ s ∈ responseRefsAt v3Pre p mth d.paths := by
  rw [opsOf_char d s h, respEntry_iff]

/-- C3: for a validated v3 document in which schema A references schema B via
a container-prefixed dollar-ref and an operation's response content schema
references B, the builder's SchemaUsage for B lists A among
`referencedBySchemas` and contains the (path, method, response) entry; and,
there being no actual reverse reference (B's body does not reference A, and
the response contents at that path and method do not reference A), the
SchemaUsage for A contains neither the symmetric inbound edge from B nor that
operation entry. -/
theorem c3_theorem (d : ApiDocumentV3) (A B p mth : String) (bodyA : Json)
    (item : List (String × OperationObj)) (op : OperationObj)
    (rs : List (String × ResponseObj))
    (hA : (A, bodyA) ∈ d.schemas) (hAne : A ≠ "")
    (hB : B ∈ d.schemas.map Prod.fst)
    (hAB : B ∈ findRefs v3Pre bodyA)
    (hpath : (p, item) ∈ d.paths) (hop : (mth, op) ∈ item)
    (hgate : lowerStr mth ∈ httpMethods)
    (hrs : op.responses = some rs)
    (hBresp : B ∈ respRefsAll v3Pre rs)
    (hnoBA : ∀ pr ∈ d.schemas, pr.1 = B → A ∉ findRefs v3Pre pr.2)
    (hnoOpA : A ∉ responseRefsAt v3Pre p mth d.paths) :
    A ∈ refByOf d B ∧ (p, mth, Role.response) ∈ opsOf d B ∧
      B ∉ refByOf d A ∧ (p, mth, Role.response) ∉ opsOf d A := by
  have hAkeys : A ∈ d.schemas.map Prod.fst := List.mem_map.mpr ⟨(A, bodyA), hA, rfl⟩
  refine ⟨?_, ?_, ?_, ?_⟩
  · exact (mem_refByOf d B A hB).mpr ⟨hAne, bodyA, hA, hAB⟩
  · exact (respEntry_opsOf d B p mth hB).mpr
      ((mem_responseRefsAt v3Pre p mth B d.paths).mpr
        ⟨item, hpath, (mem_respRefsAtItem v3Pre mth B item).mpr ⟨op, rs, hop, hgate, hrs, hBresp⟩⟩)
  · intro hmem
    rcases (mem_refByOf d A B hAkeys).mp hmem with ⟨hBne, b, hb, hBA⟩
    exact hnoBA (B, b) hb rfl hBA
  · intro hmem
    exact hnoOpA ((respEntry_opsOf d A p mth hAkeys).mp hmem)

/-- Concrete two-schema document for the C3 witness: schema A references B,
the sole operation's response content references B, and nothing references A. -/
def c3Doc : ApiDocumentV3 :=
  { schemas :=
      [("A", jFields [("properties", jFields [("b", jFields [("$ref", Json.str "#/components/schemas/B")])])]),
       ("B", jFields [("type", Json.str "object")])],
    paths :=
      [("/pets",
        [("get",
          { requestBody := none,
            responses :=
              some [("200",
                { content :=
                    some [("application/json",
                      { schema := some (jFields [("$ref", Json.str "#/components/schemas/B")]) })] })] })])] }

/-- Witness for C3 at `c3Doc`. -/
theorem c3_witness :
    "A" ∈ refByOf c3Doc "B" ∧ ("/pets", "get", Role.response) ∈ opsOf c3Doc "B" ∧
      "B" ∉ refByOf c3Doc "A" ∧ ("/pets", "get", Role.response) ∉ opsOf c3Doc "A" :=
  c3_theorem c3Doc "A" "B" "/pets" "get"
    (jFields [("properties", jFields [("b", jFields [("$ref", Json.str "#/components/schemas/B")])])])
    [("get",
      { requestBody := none,
        responses :=
          some [("200",
            { content :=
                some [("application/json",
                  { schema := some (jFields [("$ref", Json.str "#/components/schemas/B")]) })] })] })]
    { requestBody := none,
      responses :=
        some [("200",
          { content :=
              some [("application/json",
                { schema := some (jFields [("$ref", Json.str "#/components/schemas/B")]) })] })] }
    [("200",
      { content :=
          some [("application/json",
            { schema := some (jFields [("$ref", Json.str "#/components/schemas/B")]) })] })]
    (by decide) (by decide) (by decide) (by decide) (by decide) (by decide)
    (by decide) (by decide) (by decide) (by decide) (by decide)

/-- A one-schema document whose only schema references itself. -/
def c4SelfDoc : ApiDocumentV3 :=
  { schemas := [("X", jFields [("$ref", Json.str "#/components/schemas/X")])],
    paths := [] }

/-- C4 counterexample: the builder records a self-reference — the schema X
whose body dollar-refs X itself ends up inside its own `referencedBySchemas`
list, contradicting the claim that X never appears in its own list (the guard
at viewer lines 123-127 deduplicates but never compares the referencer with
the referenced name). -/
theorem c4_counterexample : refByOf c4SelfDoc "X" = ["X"] := by decide

/-- C4 (amended): duplicate edges are suppressed — no referencer name appears
twice in any `referencedBySchemas` list — but self-references are not: a
schema whose body references itself appears (once) in its own list. -/
theorem c4_theorem (d : ApiDocumentV3) (S : String) (b : Json)
    (hne : S ≠ "") (hS : (S, b) ∈ d.schemas) (hself : S ∈ findRefs v3Pre b) :
    (∀ x, (refByOf d x).Nodup) ∧ S ∈ refByOf d S := by
  refine ⟨fun x => refBy_nodup_all d x, ?_⟩
  have hk : S ∈ d.schemas.map Prod.fst := List.mem_map.mpr ⟨(S, b), hS, rfl⟩
  exact (mem_refByOf d S S hk).mpr ⟨hne, b, hS, hself⟩

/-- Witness for C4 at `c4SelfDoc`. -/
theorem c4_witness :
    (∀ x, (refByOf c4SelfDoc x).Nodup) ∧ "X" ∈ refByOf c4SelfDoc "X" :=
  c4_theorem c4SelfDoc "X" (jFields [("$ref", Json.str "#/components/schemas/X")])
    (by decide) (by decide) (by decide)

/-- A document whose path item stores its operation under the upper-case key
"GET" and whose response content references schema S. -/
def c9UpperDoc : ApiDocumentV3 :=
  { schemas := [("S", jFields [("type", Json.str "object")])],
    paths :=
      [("/x",
        [("GET",
          { requestBody := none,
            responses :=
              some [("200",
                { content :=
                    some [("application/json",
                      { schema := some (jFields [("$ref", Json.str "#/components/schemas/S")]) })] })] })])] }

/-- C9 counterexample: the key "GET" is not in the fixed method list, yet the
builder records an operation entry for it (the gate at viewer line 154
compares `method.toLowerCase()`, so matching is case-insensitive and the claim
that only keys in the list are treated as operations fails). -/
theorem c9_counterexample :
    opsOf c9UpperDoc "S" = [("/x", "GET", Role.response)] ∧ ("GET" ∈ httpMethods) = False := by
  constructor
  · decide
  · decide

/-- C9 (amended): a path-item key is treated as an operation exactly when its
lower-cased form is in the fixed method list, and every recorded entry comes
from an operation object that has a `responses` key — an operation without one
is skipped entirely, so its request-body references are never recorded. -/
theorem c9_theorem (d : ApiDocumentV3) (s p mth : String) (role : Role)
    (hmem : (p, mth, role) ∈ opsOf d s) :
    lowerStr mth ∈ httpMethods ∧
      ∃ item op rs, (p, item) ∈ d.paths ∧ (mth, op) ∈ item ∧ op.responses = some rs := by
  by_cases hk : s ∈ d.schemas.map Prod.fst
  · rw [opsOf_char d s hk] at hmem
    rcases (mem_pathEvents v3Pre s d.paths _).mp hmem with ⟨p2, item, hpa, hit⟩
    rcases (mem_itemEvents v3Pre p2 s item _).mp hit with ⟨mth2, op, hop, hg, he⟩
    rcases (mem_opEvents v3Pre p2 mth2 s op _).mp he with ⟨rs, hr, (⟨heq, _⟩ | ⟨heq, _⟩)⟩
    · simp only [Prod.mk.injEq] at heq
      obtain ⟨rfl, rfl, _⟩ := heq
      exact ⟨hg, item, op, rs, hpa, hop, hr⟩
    · simp only [Prod.mk.injEq] at heq
      obtain ⟨rfl, rfl, _⟩ := heq
      exact ⟨hg, item, op, rs, hpa, hop, hr⟩
  · rw [opsOf_empty_of_not_mem d s hk] at hmem
    exact absurd hmem (List.not_mem_nil _)

/-- Witness for C9 at `c9UpperDoc` (its sole recorded entry satisfies the
amended characterization). -/
theorem c9_witness :
    lowerStr "GET" ∈ httpMethods ∧
      ∃ item op rs, ("/x", item) ∈ c9UpperDoc.paths ∧ ("GET", op) ∈ item ∧
        op.responses = some rs :=
  c9_theorem c9UpperDoc "S" "/x" "GET" Role.response (by decide)

/-- C10: the computed `referencedBySchemas` lists are duplicate-free, while
`operations` entries are not deduplicated: for a document whose paths consist
of one operation at (p, mth) with a `responses` key, the number of identical
(p, mth, response) entries recorded for a container schema S equals the number
of occurrences of references to S across the response contents — one entry per
occurrence, so a reference repeated in n distinct media types yields n equal
entries. -/
theorem c10_theorem (d : ApiDocumentV3) (S p mth : String) (op : OperationObj)
    (rs : List (String × ResponseObj))
    (hk : S ∈ d.schemas.map Prod.fst)
    (hpaths : d.paths = [(p, [(mth, op)])])
    (hgate : lowerStr mth ∈ httpMethods)
    (hrs : op.responses = some rs) :
    (∀ x, (refByOf d x).Nodup) ∧
      countEntry (p, mth, Role.response) (opsOf d S) =
        countOcc S (respRefsAll v3Pre rs) := by
  refine ⟨fun x => refBy_nodup_all d x, ?_⟩
  rw [opsOf_char d S hk, hpaths]
  unfold pathEvents itemEvents
  rw [if_pos hgate]
  unfold opEvents
  rw [hrs]
  simp only [pathEvents, itemEvents, List.append_nil, countEntry_append, countEntry_replicate]
  simp

/-- Document for the C10 witness: one GET operation whose two response media
types each reference schema S once. -/
def c10Doc : ApiDocumentV3 :=
  { schemas := [("S", jFields [("type", Json.str "object")])],
    paths :=
      [("/y",
        [("get",
          { requestBody := none,
            responses :=
              some [("200",
                { content :=
                    some [("application/json",
                      { schema := some (jFields [("$ref", Json.str "#/components/schemas/S")]) }),
                     ("application/xml",
                      { schema := some (jFields [("$ref", Json.str "#/components/schemas/S")]) })] })] })])] }

/-- Witness for C10 at `c10Doc`: the two media types produce two equal
(path, method, response) entries. -/
theorem c10_witness :
    (∀ x, (refByOf c10Doc x).Nodup) ∧
      countEntry ("/y", "get", Role.response) (opsOf c10Doc "S") =
        countOcc "S"
          (respRefsAll v3Pre
            [("200",
              { content :=
                  some [("application/json",
                    { schema := some (jFields [("$ref", Json.str "#/components/schemas/S")]) }),
                   ("application/xml",
                    { schema := some (jFields [("$ref", Json.str "#/components/schemas/S")]) })] })]) :=
  c10_theorem c10Doc "S" "/y" "get"
    { requestBody := none,
      responses :=
        some [("200",
          { content :=
              some [("application/json",
                { schema := some (jFields [("$ref", Json.str "#/components/schemas/S")]) }),
               ("application/xml",
                { schema := some (jFields [("$ref", Json.str "#/components/schemas/S")]) })] })] }
    [("200",
      { content :=
          some [("application/json",
            { schema := some (jFields [("$ref", Json.str "#/components/schemas/S")]) }),
           ("application/xml",
            { schema := some (jFields [("$ref", Json.str "#/components/schemas/S")]) })] })]
    (by decide) (by decide) (by decide) (by decide)

theorem getKey_setField (j : Json) (k : String) (v w : Json)
    (h : getKey j k = some w) : getKey (setField j k v) k = some v := by
  induction j with
  | null => simp [getKey] at h
  | boolVal b => simp [getKey] at h
  | numVal n => simp [getKey] at h
  | str s => simp [getKey] at h
  | arrNil => simp [getKey] at h
  | arrCons a b iha ihb => simp [getKey] at h
  | objNil => simp [getKey] at h
  | objCons k2 v2 rest ihv ihr =>
      by_cases hk : k2 = k
      · subst hk
        simp [getKey, setField]
      · simp only [getKey, setField, if_neg hk] at h ⊢
        exact ihr h

theorem c1_ball : ∀ n, n < 100 → (4 ≤ n →
    ((truthy (Json.str ("3.0." ++ toString n)) &&
        strStarts ("3.0." ++ toString n) "3.0." &&
        strGt ("3.0." ++ toString n) "3.0.3") = decide (n ≤ 9 ∨ 30 ≤ n))) := by decide

/-- C1 (amended): the shared normalizer overrides a declared version
`3.0.<n>`, 4 ≤ n ≤ 99, exactly when the string `"3.0.<n>"` is
lexicographically greater than `"3.0.3"`: for n in 4..9 and 30..99 the stored
field becomes "3.0.3" and the flag is raised, while for n in 10..29 the
document passes through unchanged with the flag down (JavaScript string
comparison, not numeric comparison, is used on both ingestion paths). -/
theorem c1_theorem (j : Json) (n : Nat) (h4 : 4 ≤ n) (h99 : n ≤ 99)
    (hkey : getKey j "openapi" = some (Json.str ("3.0." ++ toString n))) :
    ((10 ≤ n ∧ n ≤ 29) → normalizeVersion j = (j, false)) ∧
      ((n ≤ 9 ∨ 30 ≤ n) →
        normalizeVersion j = (setField j "openapi" (Json.str "3.0.3"), true) ∧
          getKey (setField j "openapi" (Json.str "3.0.3")) "openapi" =
            some (Json.str "3.0.3")) := by
  have hball := c1_ball n (Nat.lt_succ_of_le h99) h4
  constructor
  · rintro ⟨h10, h29⟩
    have hdec : decide (n ≤ 9 ∨ 30 ≤ n) = false := by
      simp only [decide_eq_false_iff_not]
      rintro (h | h) <;> omega
    simp only [normalizeVersion, hkey]
    rw [hball, hdec]
    simp
  · intro h
    have hdec : decide (n ≤ 9 ∨ 30 ≤ n) = true := decide_eq_true h
    refine ⟨?_, ?_⟩
    · simp only [normalizeVersion, hkey]
      rw [hball, hdec]
      simp
    · exact getKey_setField j "openapi" (Json.str "3.0.3") _ hkey

/-- A document declaring `openapi: "3.0.10"`. -/
def c1Doc : Json :=
  jFields [("openapi", Json.str "3.0.10"),
    ("info", jFields [("title", Json.str "T"), ("version", Json.str "1")]),
    ("paths", Json.objNil)]

/-- C1 counterexample: version 3.0.10 lies in the claimed 3.0.4–3.0.99 range,
but the normalizer leaves the document unchanged with the flag down (the
JavaScript string test `"3.0.10" > "3.0.3"` is false), and the URL pipeline
consequently ingests it with `versionOverridden = false` and the stored
`openapi` field still `"3.0.10"`, not `"3.0.3"`. -/
theorem c1_counterexample :
    normalizeVersion c1Doc = (c1Doc, false) ∧
      routePipeline (fun _ => Except.ok c1Doc) (fun _ => Except.error "unused")
        (fun j2 => Except.ok j2) (fun _ => "dump") "u" "t" =
        Except.ok (c1Doc, "dump", false) ∧
      getKey c1Doc "openapi" = some (Json.str "3.0.10") := by
  refine ⟨rfl, rfl, rfl⟩

/-- A document declaring `openapi: "3.0.4"` for the C1 witness. -/
def c1DocW : Json := jFields [("openapi", Json.str "3.0.4")]

/-- Witness for C1 at n = 4. -/
theorem c1_witness :
    ((10 ≤ 4 ∧ 4 ≤ 29) → normalizeVersion c1DocW = (c1DocW, false)) ∧
      ((4 ≤ 9 ∨ 30 ≤ 4) →
        normalizeVersion c1DocW = (setField c1DocW "openapi" (Json.str "3.0.3"), true) ∧
          getKey (setField c1DocW "openapi" (Json.str "3.0.3")) "openapi" =
            some (Json.str "3.0.3")) :=
  c1_theorem c1DocW 4 (by decide) (by decide) (by decide)

/-- C2: every failing load attempt leaves the previously stored document (and
rawText, name, id) untouched, populates `error`, and clears `loading`; the
document is replaced — atomically together with rawText, name and id, with
`error` cleared — only when the whole pipeline succeeds. -/
theorem c2_theorem (s : StoreState) (freshId : String) (res : Except String LoadSuccess) :
    (∀ e, res = Except.error e →
      (onSubmit s freshId res).document = s.document ∧
        (onSubmit s freshId res).rawText = s.rawText ∧
        (onSubmit s freshId res).name = s.name ∧
        (onSubmit s freshId res).id = s.id ∧
        (onSubmit s freshId res).error = some e ∧
        (onSubmit s freshId res).loading = false) ∧
      (∀ r, res = Except.ok r →
        onSubmit s freshId res =
          { document := some r.specObject, rawText := some r.rawSpecText,
            name := some r.name, id := some freshId, loading := false, error := none }) := by
  constructor
  · rintro e rfl
    exact ⟨rfl, rfl, rfl, rfl, rfl, rfl⟩
  · rintro r rfl
    rfl

/-- A store state holding a previously loaded document. -/
def loadedStore : StoreState :=
  { document := some (jFields [("openapi", Json.str "3.0.0")]),
    rawText := some "openapi: 3.0.0", name := some "old.yaml",
    id := some "id0", loading := false, error := none }

/-- Witness for C2: a failing load against `loadedStore` keeps the old
document and surfaces the error. -/
theorem c2_witness :
    (onSubmit loadedStore "id1" (Except.error "boom")).document = loadedStore.document ∧
      (onSubmit loadedStore "id1" (Except.error "boom")).rawText = loadedStore.rawText ∧
      (onSubmit loadedStore "id1" (Except.error "boom")).name = loadedStore.name ∧
      (onSubmit loadedStore "id1" (Except.error "boom")).id = loadedStore.id ∧
      (onSubmit loadedStore "id1" (Except.error "boom")).error = some "boom" ∧
      (onSubmit loadedStore "id1" (Except.error "boom")).loading = false :=
  (c2_theorem loadedStore "id1" (Except.error "boom")).1 "boom" rfl

/-- A minimal candidate document (it has a truthy `openapi` key). -/
def candDoc : Json := jFields [("openapi", Json.str "3.0.0")]

/-- C5 counterexample: on the live route, when the YAML parser throws (as
js-yaml does, for example, on JSON text with a duplicated key), the JSON parse
is never attempted — even though it would produce a valid candidate here — and
the surfaced message carries only the YAML message, not both parser messages. -/
theorem c5_counterexample :
    detectRoute (fun _ => Except.error "YAMLException: duplicated mapping key")
        (fun _ => Except.ok candDoc) "u" "t" =
      Except.error ("Failed to parse specification from u. Content is not valid YAML or JSON. Error: YAMLException: duplicated mapping key") ∧
      (fun _ => (Except.ok candDoc : Except String Json) : String → Except String Json) "t" =
        Except.ok candDoc ∧
      isCandidate candDoc = true :=
  ⟨rfl, rfl, rfl⟩

/-- C5 (amended): on the live route, YAML is attempted first and a candidate
result is accepted; the JSON fallback runs only when the YAML parse returned a
value that is not a candidate; when the YAML parser throws, JSON is not
attempted (the result does not depend on the JSON parser at all) and the error
carries only the YAML message inside a fixed wrapper; and when both parses
yield no candidate, the error carries a fixed generic message rather than the
two parser messages. -/
theorem c5_theorem (yamlParse jsonParse : String → Except String Json) (u t : String) :
    (∀ v, yamlParse t = Except.ok v → isCandidate v = true →
        detectRoute yamlParse jsonParse u t = Except.ok v) ∧
      (∀ v w, yamlParse t = Except.ok v → isCandidate v = false →
        jsonParse t = Except.ok w → isCandidate w = true →
        detectRoute yamlParse jsonParse u t = Except.ok w) ∧
      (∀ e, yamlParse t = Except.error e →
        ∀ jsonParse2, detectRoute yamlParse jsonParse2 u t =
          Except.error ("Failed to parse specification from " ++ u ++
            ". Content is not valid YAML or JSON. Error: " ++ e)) ∧
      (∀ v, yamlParse t = Except.ok v → isCandidate v = false →
        (∀ w, jsonParse t = Except.ok w → isCandidate w = false) →
        detectRoute yamlParse jsonParse u t =
          Except.error ("Failed to parse specification from " ++ u ++
            ". Content is not valid YAML or JSON. Error: Content is not valid YAML or JSON.")) := by
  refine ⟨?_, ?_, ?_, ?_⟩
  · intro v hv hc
    simp [detectRoute, hv, hc]
  · intro v w hv hc hw hcw
    simp [detectRoute, hv, hc, hw, hcw]
  · intro e he jsonParse2
    simp [detectRoute, he]
  · intro v hv hc hall
    simp only [detectRoute, hv, hc]
    cases hw : jsonParse t with
    | ok w => simp [hw, hall w hw]
    | error e2 => simp [hw]

/-- Witness for C5: the YAML-first acceptance at a concrete candidate. -/
theorem c5_witness :
    detectRoute (fun _ => Except.ok candDoc) (fun _ => Except.error "x") "u" "t" =
      Except.ok candDoc :=
  (c5_theorem (fun _ => Except.ok candDoc) (fun _ => Except.error "x") "u" "t").1
    candDoc rfl rfl

/-- A document declaring `openapi: "3.0.10"` (missed by the pre-validation
normalizer) used by the C6 counterexample. -/
def c6Doc : Json := jFields [("openapi", Json.str "3.0.10"), ("paths", Json.objNil)]

/-- A bundler that rejects everything except a downgraded document, with an
unsupported-version message. -/
def c6Bundle : Json → Except String Json := fun j =>
  if getKey j "openapi" = some (Json.str "3.0.3") then Except.ok j
  else Except.error "Unsupported OpenAPI version: 3.0.10"

/-- C6 counterexample: on the live route, a validation/bundling failure with
an unsupported-version message for 3.0.10 (numerically greater than 3.0.3 and
not caught by the normalizer) is surfaced immediately, wrapped once — even
though, as the second conjunct shows, a single downgrade-and-retry would have
succeeded.  No retry happens and no override-attempted prefix appears. -/
theorem c6_counterexample :
    routePipeline (fun _ => Except.ok c6Doc) (fun _ => Except.error "unused")
        c6Bundle (fun _ => "dump") "u" "t" =
      Except.error "Failed to validate/bundle spec from u: Unsupported OpenAPI version: 3.0.10" ∧
      c6Bundle (setField c6Doc "openapi" (Json.str "3.0.3")) =
        Except.ok (setField c6Doc "openapi" (Json.str "3.0.3")) ∧
      normalizeVersion c6Doc = (c6Doc, false) :=
  ⟨rfl, rfl, rfl⟩

/-- C6 (amended): the live URL route performs no validation retry — whenever
`SwaggerParser.bundle` fails on the normalized document the pipeline surfaces
the failure immediately, wrapped as "Failed to validate/bundle spec from
<url>: <message>".  The downgrade-and-retry-once policy exists only in the
older route variant: there, when the first validation fails with an
"Unsupported OpenAPI version" message whose captured 3.0.x version is
lexicographically greater than "3.0.3" and no override has happened, the
version is set to "3.0.3" and validation is retried exactly once; a second
failure is surfaced with the prefix "... even after overriding version to
3.0.3:". -/
theorem c6_theorem (yamlParse jsonParse : String → Except String Json)
    (bundle validate : Json → Except String Json) (yamlDump : Json → String)
    (u t : String) :
    (∀ spec e, detectRoute yamlParse jsonParse u t = Except.ok spec →
        bundle (normalizeVersion spec).1 = Except.error e →
        routePipeline yamlParse jsonParse bundle yamlDump u t =
          Except.error ("Failed to validate/bundle spec from " ++ u ++ ": " ++ e)) ∧
      (∀ spec e ver, validate spec = Except.error e →
        containsSub e "Unsupported OpenAPI version" = true →
        extractVersion e = some ver → strGt ver "3.0.3" = true →
        (∀ v2, validate (setField spec "openapi" (Json.str "3.0.3")) = Except.ok v2 →
            validateStage_p1 validate u false spec = Except.ok (v2, true)) ∧
          (∀ e2, validate (setField spec "openapi" (Json.str "3.0.3")) = Except.error e2 →
            validateStage_p1 validate u false spec =
              Except.error ("Failed to validate spec from " ++ u ++
                " even after overriding version to 3.0.3: " ++ e2))) := by
  constructor
  · intro spec e hdet hbundle
    rcases hnv : normalizeVersion spec with ⟨spec2, ov⟩
    rw [hnv] at hbundle
    simp only at hbundle
    simp [routePipeline, hdet, hnv, hbundle]
  · intro spec e ver hval hcont hext hgt
    constructor
    · intro v2 hok
      simp [validateStage_p1, hval, hcont, hext, hgt, hok]
    · intro e2 herr
      simp [validateStage_p1, hval, hcont, hext, hgt, herr]

/-- The spec fed to the C6 witness (its version is not "3.0.3", so
`c6WitnessValidate` rejects it with an unsupported-version message). -/
def c6SpecW : Json := jFields [("openapi", Json.str "3.0.4")]

/-- Validator for the C6 witness: accepts exactly documents already
downgraded to 3.0.3. -/
def c6WitnessValidate : Json → Except String Json := fun j =>
  if getKey j "openapi" = some (Json.str "3.0.3") then Except.ok j
  else Except.error "Unsupported OpenAPI version: 3.0.4"

/-- Witness for C6: the older variant retries once after the downgrade and
succeeds. -/
theorem c6_witness :
    validateStage_p1 c6WitnessValidate "u" false c6SpecW =
      Except.ok (setField c6SpecW "openapi" (Json.str "3.0.3"), true) :=
  ((c6_theorem (fun _ => Except.error "unused") (fun _ => Except.error "unused")
      (fun j2 => Except.ok j2) c6WitnessValidate (fun _ => "dump") "u" "t").2
    c6SpecW "Unsupported OpenAPI version: 3.0.4" "3.0.4" rfl (by decide)
    (by decide) (by decide)).1
    (setField c6SpecW "openapi" (Json.str "3.0.3")) rfl

/-- C7 counterexample: a file named with a JSON extension whose content the
JSON parser rejects fails outright — the YAML parser, which here would return
a valid candidate for the same text, is never consulted, so there is no
fallback chain on the file path. -/
theorem c7_counterexample :
    filePipeline (fun _ => Except.ok candDoc) (fun _ => Except.error "Unexpected token")
        (fun j2 => Except.ok j2) (fun _ => "dump") "openapi.json" "t" =
      Except.error "Unexpected token" ∧
      (fun _ => (Except.ok candDoc : Except String Json) : String → Except String Json) "t" =
        Except.ok candDoc ∧
      isCandidate candDoc = true :=
  ⟨rfl, rfl, rfl⟩

/-- C7 (amended): on the file-upload path the extension selects the only
parser that runs — `.yaml`/`.yml` files go to the YAML parser and everything
else to the JSON parser, the outcome being independent of the other parser —
and a failure of the selected parser is the failure of the whole pipeline; no
fallback to the other format ever happens. -/
theorem c7_theorem (yamlParse yamlParse2 jsonParse jsonParse2 : String → Except String Json)
    (bundle : Json → Except String Json) (yamlDump : Json → String) (fn t : String) :
    (isYamlExt fn = true →
      filePipeline yamlParse jsonParse bundle yamlDump fn t =
        filePipeline yamlParse jsonParse2 bundle yamlDump fn t) ∧
      (isYamlExt fn = false →
        filePipeline yamlParse jsonParse bundle yamlDump fn t =
          filePipeline yamlParse2 jsonParse bundle yamlDump fn t) ∧
      (isYamlExt fn = true → ∀ e, yamlParse t = Except.error e →
        filePipeline yamlParse jsonParse bundle yamlDump fn t = Except.error e) ∧
      (isYamlExt fn = false → ∀ e, jsonParse t = Except.error e →
        filePipeline yamlParse jsonParse bundle yamlDump fn t = Except.error e) := by
  refine ⟨?_, ?_, ?_, ?_⟩
  · intro hext
    simp [filePipeline, parseFileContent, hext]
  · intro hext
    simp [filePipeline, parseFileContent, hext]
  · intro hext e he
    simp [filePipeline, parseFileContent, hext, he]
  · intro hext e he
    simp [filePipeline, parseFileContent, hext, he]

/-- Witness for C7: a `.json` file with a failing JSON parse fails even though
a YAML parse of the same text would succeed. -/
theorem c7_witness :
    filePipeline (fun _ => Except.ok candDoc) (fun _ => Except.error "Unexpected token")
        (fun j2 => Except.ok j2) (fun _ => "dump") "openapi.json" "t" =
      Except.error "Unexpected token" :=
  (c7_theorem (fun _ => Except.ok candDoc) (fun _ => Except.ok candDoc)
      (fun _ => Except.error "Unexpected token") (fun _ => Except.error "x")
      (fun j2 => Except.ok j2) (fun _ => "dump") "openapi.json" "t").2.2.2
    (by decide) "Unexpected token" rfl

/-- The empty store state (process start). -/
def emptyStore : StoreState :=
  { document := none, rawText := none, name := none, id := none,
    loading := false, error := none }

/-- A syntactically valid document carrying neither a `swagger` nor an
`openapi` key. -/
def c8NoKeyDoc : Json :=
  jFields [("info", jFields [("title", Json.str "T")]), ("paths", Json.objNil)]

/-- C8 counterexample: on the file-upload path no version-key check exists —
a parsed document with neither `swagger` nor `openapi` key sails through to
bundling, ingestion succeeds when bundling succeeds, and the store is updated
with the key-less document and no error, contradicting the claim that both
paths fail with a ParseError. -/
theorem c8_counterexample :
    isCandidate c8NoKeyDoc = false ∧
      filePipeline (fun _ => Except.error "unused") (fun _ => Except.ok c8NoKeyDoc)
          (fun j2 => Except.ok j2) (fun _ => "dump") "spec.json" "t" =
        Except.ok (c8NoKeyDoc, "dump", false) ∧
      (onSubmitFile (fun _ => Except.error "unused") (fun _ => Except.ok c8NoKeyDoc)
          (fun j2 => Except.ok j2) (fun _ => "dump") emptyStore "id1" "spec.json" "t").document =
        some c8NoKeyDoc ∧
      (onSubmitFile (fun _ => Except.error "unused") (fun _ => Except.ok c8NoKeyDoc)
          (fun j2 => Except.ok j2) (fun _ => "dump") emptyStore "id1" "spec.json" "t").error =
        none :=
  ⟨rfl, rfl, rfl, rfl⟩

/-- C8 (amended): on the URL path, whenever every successful parse of the text
yields a document lacking both keys, detection fails with a parse error; on
the file-upload path no such check exists — a key-less document proceeds to
bundling, and when bundling succeeds the ingestion succeeds and the store
receives the document. -/
theorem c8_theorem (yamlParse jsonParse : String → Except String Json)
    (bundle : Json → Except String Json) (yamlDump : Json → String)
    (s : StoreState) (freshId u fn t : String) :
    ((∀ v, yamlParse t = Except.ok v → isCandidate v = false) →
      (∀ w, jsonParse t = Except.ok w → isCandidate w = false) →
      ∃ msg, detectRoute yamlParse jsonParse u t = Except.error msg) ∧
      (∀ v d2, isYamlExt fn = false → jsonParse t = Except.ok v →
        isCandidate v = false →
        bundle (normalizeVersion v).1 = Except.ok d2 →
        filePipeline yamlParse jsonParse bundle yamlDump fn t =
          Except.ok (d2, yamlDump d2, (normalizeVersion v).2) ∧
          (onSubmitFile yamlParse jsonParse bundle yamlDump s freshId fn t).document =
            some d2) := by
  constructor
  · intro hy hj
    cases hv : yamlParse t with
    | error e =>
        exact ⟨"Failed to parse specification from " ++ u ++
          ". Content is not valid YAML or JSON. Error: " ++ e, by simp [detectRoute, hv]⟩
    | ok v =>
        have hcv := hy v hv
        cases hw : jsonParse t with
        | error e2 =>
            exact ⟨"Failed to parse specification from " ++ u ++
              ". Content is not valid YAML or JSON. Error: Content is not valid YAML or JSON.",
              by simp [detectRoute, hv, hcv, hw]⟩
        | ok w =>
            exact ⟨"Failed to parse specification from " ++ u ++
              ". Content is not valid YAML or JSON. Error: Content is not valid YAML or JSON.",
              by simp [detectRoute, hv, hcv, hw, hj w hw]⟩
  · intro v d2 hext hjson hcand hbundle
    rcases hnv : normalizeVersion v with ⟨v2, ov⟩
    rw [hnv] at hbundle
    simp only at hbundle
    have hpipe : filePipeline yamlParse jsonParse bundle yamlDump fn t =
        Except.ok (d2, yamlDump d2, ov) := by
      simp [filePipeline, parseFileContent, hext, hjson, hnv, hbundle]
    refine ⟨by simp [hpipe, hnv], ?_⟩
    simp only [onSubmitFile, hpipe]
    rfl

/-- Witness for C8: both parsers yield only key-less documents, so URL
detection fails; and the same key-less document ingests on the file path. -/
theorem c8_witness :
    (∃ msg, detectRoute (fun _ => Except.ok c8NoKeyDoc) (fun _ => Except.ok c8NoKeyDoc)
        "u" "t" = Except.error msg) ∧
      filePipeline (fun _ => Except.ok c8NoKeyDoc) (fun _ => Except.ok c8NoKeyDoc)
          (fun j2 => Except.ok j2) (fun _ => "dump") "spec.json" "t" =
        Except.ok (c8NoKeyDoc, "dump", (normalizeVersion c8NoKeyDoc).2) ∧
        (onSubmitFile (fun _ => Except.ok c8NoKeyDoc) (fun _ => Except.ok c8NoKeyDoc)
            (fun j2 => Except.ok j2) (fun _ => "dump") emptyStore "id1" "spec.json" "t").document =
          some c8NoKeyDoc :=
  ⟨(c8_theorem (fun _ => Except.ok c8NoKeyDoc) (fun _ => Except.ok c8NoKeyDoc)
      (fun j2 => Except.ok j2) (fun _ => "dump") emptyStore "id1" "u" "spec.json" "t").1
      (fun v hv => by cases hv; rfl) (fun w hw => by cases hw; rfl),
    (c8_theorem (fun _ => Except.ok c8NoKeyDoc) (fun _ => Except.ok c8NoKeyDoc)
      (fun j2 => Except.ok j2) (fun _ => "dump") emptyStore "id1" "u" "spec.json" "t").2
      c8NoKeyDoc c8NoKeyDoc (by decide) rfl rfl rfl⟩
